import Mathlib

/-!
Verification of the serde-gron serializer (`src/ser.rs`, driven through
`serde_json::Value` as in `src/lib.rs`) against its specification.

The serializer walks a JSON-like value tree and emits one assignment
statement per visited node, tracking the access path in a namespace stack.
We embed the value tree, the serializer context, the `RegularFormatter`,
and the recursive serialization driver as executable Lean functions, and
prove the claims of the specification about them.
-/

set_option maxHeartbeats 1000000

namespace SerdeGron

/-- The input value tree. Mirrors the shapes that `serde_json::Value`
feeds into the serializer: `null`, booleans, numbers, strings, arrays and
objects (ordered association lists, preserving insertion order and
allowing repeated keys).

Numbers: the Rust `write_number` only uses the numeric argument through its
`Display` rendering (`write!(writer, "{value}")`). We model signed integers
by `Int` (whose `toString` agrees with the Rust integer `Display`) and carry
the `Display` text of a float directly in the `float` variant, since the
serializer never inspects the number beyond its decimal text. -/
inductive Value where
  | null : Value
  | bool (b : Bool) : Value
  | int (n : Int) : Value
  | float (rendered : String) : Value
  | str (s : String) : Value
  | arr (elems : List Value) : Value
  | obj (entries : List (String × Value)) : Value

/-- Rust `enum NamespaceKey` from `ser.rs`: `Array(usize)` or `Object(String)`. -/
inductive NamespaceKey where
  | array (n : Nat) : NamespaceKey
  | object (k : String) : NamespaceKey
deriving DecidableEq

/-- Rust `struct Context`: a root name, the namespace stack, and the finish flag. -/
structure Context where
  ns_root : String
  ns : List NamespaceKey
  finish : Bool
deriving DecidableEq

/-- Rust `Context::new_with_root_name`. -/
def Context.new_with_root_name (name : String) : Context :=
  { ns_root := name, ns := [], finish := false }

/-- Rust `Context::is_root`: the namespace stack is empty. -/
def Context.is_root (c : Context) : Bool :=
  c.ns.isEmpty

/-- The error enum of `ser.rs` (`InvalidRootName`, `Eof`, `Serialize`,
an IO wrapper, `Custom`). The in-memory writer (`Vec<u8>`) never fails, so runs in
this development only ever produce `eof`. -/
inductive Error where
  | invalidRootName : Error
  | eof : Error
  | serializeError (msg : String) : Error
  | ioError : Error
  | custom (msg : String) : Error
deriving DecidableEq

/-- The serializer state: the output accumulated in the writer so far
(`Vec<u8>` as a `String`, since all writes are UTF-8 text) and the context. -/
structure SerState where
  out : String
  ctx : Context
deriving DecidableEq

instance {ε α : Type} [DecidableEq ε] [DecidableEq α] : DecidableEq (Except ε α) := fun a b =>
  match a, b with
  | .error x, .error y =>
    match decEq x y with
    | isTrue h => isTrue (by rw [h])
    | isFalse h => isFalse (fun hc => by cases hc; exact h rfl)
  | .error _, .ok _ => isFalse (fun hc => Except.noConfusion hc)
  | .ok _, .error _ => isFalse (fun hc => Except.noConfusion hc)
  | .ok x, .ok y =>
    match decEq x y with
    | isTrue h => isTrue (by rw [h])
    | isFalse h => isFalse (fun hc => by cases hc; exact h rfl)

/-- First-character class of the regex `RE_OBJECT_KEY` (`^[a-zA-Z][a-zA-Z0-9_]*$`). -/
def isAsciiAlpha (c : Char) : Bool :=
  ('a' ≤ c && c ≤ 'z') || ('A' ≤ c && c ≤ 'Z')

/-- Tail-character class of the regex `RE_OBJECT_KEY` (`^[a-zA-Z][a-zA-Z0-9_]*$`). -/
def isIdentTail (c : Char) : Bool :=
  isAsciiAlpha c || ('0' ≤ c && c ≤ '9') || c = '_'

/-- Whether `RE_OBJECT_KEY` (`^[a-zA-Z][a-zA-Z0-9_]*$`) matches the key:
a non-empty string whose first character is an ASCII letter and whose
remaining characters are ASCII letters, digits or underscores. -/
def reObjectKeyMatch (key : String) : Bool :=
  match key.data with
  | [] => false
  | c :: cs => isAsciiAlpha c && cs.all isIdentTail

/-- Rust `write_key_object`: append `.key` when the key matches `RE_OBJECT_KEY`,
otherwise append `["key"]`. Writers are modeled as append to a `String`. -/
def write_key_object (writer : String) (key : String) : String :=
  if reObjectKeyMatch key then writer ++ "." ++ key
  else writer ++ "[\"" ++ key ++ "\"]"

/-- The loop body of `RegularFormatter::write_key`: append one namespace
segment text to the accumulated path. -/
def renderSeg (res : String) (ns : NamespaceKey) : String :=
  match ns with
  | .array n => res ++ "[" ++ toString n ++ "]"
  | .object k => write_key_object res k

/-- Rust `RegularFormatter::write_key`: the root name followed by each segment
in order. -/
def write_key (ns_root : String) (nss : List NamespaceKey) : String :=
  nss.foldl renderSeg ns_root

/-- Rust `RegularFormatter::write_key_value_delimiter` writes `" = "`. -/
def write_key_value_delimiter : String := " = "

/-- Rust `RegularFormatter::write_end_of_line` writes `";"` then a newline. -/
def write_end_of_line : String := ";\n"

/-- Rust `RegularFormatter::write_null` writes `null`. -/
def write_null : String := "null"

/-- Rust `RegularFormatter::write_bool` writes the `Display` text of the bool
(`true` / `false`). -/
def write_bool (value : Bool) : String := if value then "true" else "false"

/-- Rust `RegularFormatter::write_string` writes the raw text wrapped in double
quotes, with no internal escaping. -/
def write_string (value : String) : String := "\"" ++ value ++ "\""

/-- Rust `RegularFormatter::write_init_array` writes `[]`. -/
def write_init_array : String := "[]"

/-- Rust `RegularFormatter::write_init_object` writes the empty-object marker
(open brace, close brace). -/
def write_init_object : String := "\x7b\x7d"

/-- One hex digit as rendered by the serde_json escape table
(`0123456789abcdef`). -/
def hexDigitChar (n : Nat) : Char :=
  if n < 10 then Char.ofNat (48 + n) else Char.ofNat (87 + n)

/-- How `serde_json::to_string` escapes one character inside a JSON string:
`"` and `\` get a backslash escape; backspace, tab, newline, form feed and
carriage return get their short escapes; other control characters below
0x20 become `\u00xx`; everything else passes through. -/
def jsonEscapeChar (c : Char) : List Char :=
  if c = '"' then ['\\', '"']
  else if c = '\\' then ['\\', '\\']
  else if c.toNat = 8 then ['\\', 'b']
  else if c.toNat = 9 then ['\\', 't']
  else if c.toNat = 10 then ['\\', 'n']
  else if c.toNat = 12 then ['\\', 'f']
  else if c.toNat = 13 then ['\\', 'r']
  else if c.toNat < 32 then
    ['\\', 'u', '0', '0', hexDigitChar (c.toNat / 16), hexDigitChar (c.toNat % 16)]
  else [c]

/-- Result of `serde_json::to_string` applied to a string key: the JSON-escaped text
wrapped in double quotes. -/
def jsonQuote (s : String) : String :=
  ⟨'"' :: (s.data.map jsonEscapeChar).flatten ++ ['"']⟩

/-- Rust `str::trim_matches` with a double-quote pattern: remove every leading and every trailing
double-quote character. -/
def trimQuotes (s : String) : String :=
  ⟨(((s.data.dropWhile (fun c => c = '"')).reverse.dropWhile
      (fun c => c = '"')).reverse)⟩

/-- The key transformation in `SerializeMap::serialize_key`:
`serde_json::to_string(key)?.trim_matches('"').to_string()`.
(For string keys `serde_json::to_string` cannot fail, so this is total.) -/
def mapKey (key : String) : String :=
  trimQuotes (jsonQuote key)

/-- Push a segment onto the namespace stack of the context. -/
def SerState.push (st : SerState) (k : NamespaceKey) : SerState :=
  { st with ctx := { st.ctx with ns := st.ctx.ns ++ [k] } }

/-- Rust `Vec::pop` on the namespace stack: drop the last segment. -/
def SerState.pop (st : SerState) : SerState :=
  { st with ctx := { st.ctx with ns := st.ctx.ns.dropLast } }

/-- Post-step of `SerializeSeq::serialize_element`: increment the trailing
`Array` counter. The Rust code `unreachable!`-panics when the stack is
empty or ends in an `Object` segment; that situation never arises in runs
driven by the value tree (an `Array` counter is pushed before any element
is serialized), and we model those dead branches as the identity. -/
def bumpLast : List NamespaceKey → List NamespaceKey
  | [] => []
  | [NamespaceKey.array n] => [NamespaceKey.array (n + 1)]
  | [NamespaceKey.object k] => [NamespaceKey.object k]
  | x :: y :: t => x :: bumpLast (y :: t)

/-- Apply `bumpLast` to the namespace stack of a state. -/
def SerState.bump (st : SerState) : SerState :=
  { st with ctx := { st.ctx with ns := bumpLast st.ctx.ns } }

/-- Rust statement setting the finish flag at root: `if self.ctx.is_root` then
set `self.ctx.finish` to `true`. -/
def SerState.finishIfRoot (st : SerState) : SerState :=
  if st.ctx.is_root then { st with ctx := { st.ctx with finish := true } }
  else st

/-- Emit one full statement (key, delimiter, rendered value, end of line)
at the current path. Shared shape of `serialize_number`, `serialize_str`,
`serialize_unit`, `serialize_array_init` and `serialize_object_init`. -/
def emitStatement (st : SerState) (rendered : String) : SerState :=
  { st with out := st.out ++ write_key st.ctx.ns_root st.ctx.ns
      ++ write_key_value_delimiter ++ rendered ++ write_end_of_line }

mutual

/-- Meaning of `value.serialize` for a `serde_json`-style value against the
`Serializer` of `ser.rs` with the `RegularFormatter`:

* `null` via `serialize_unit`; `bool` via `serialize_bool` (which, unlike every
  other scalar, does not call `write_end_of_line`); numbers →
  `serialize_number`; strings → `serialize_str`. Each checks
  `error_if_finished`, emits at the current path and sets `finish` at root.
* arrays → `serialize_seq` (`serialize_array_init`, push `Array(0)`), then
  `serialize_element` per element, then `SerializeSeq::end` (pop);
* objects → `serialize_map` (`serialize_object_init`), then per entry
  `serialize_key` (push the transformed key) and `serialize_value`
  (serialize the child, pop); `SerializeMap::end` is a no-op. -/
def serializeValue : Value → SerState → Except Error SerState
  | .null, st =>
    if st.ctx.finish then .error .eof
    else .ok (SerState.finishIfRoot (emitStatement st write_null))
  | .bool b, st =>
    if st.ctx.finish then .error .eof
    else
      .ok (SerState.finishIfRoot
        { st with out := st.out ++ write_key st.ctx.ns_root st.ctx.ns
            ++ write_key_value_delimiter ++ write_bool b })
  | .int n, st =>
    if st.ctx.finish then .error .eof
    else .ok (SerState.finishIfRoot (emitStatement st (toString n)))
  | .float rendered, st =>
    if st.ctx.finish then .error .eof
    else .ok (SerState.finishIfRoot (emitStatement st rendered))
  | .str s, st =>
    if st.ctx.finish then .error .eof
    else .ok (SerState.finishIfRoot (emitStatement st (write_string s)))
  | .arr xs, st =>
    if st.ctx.finish then .error .eof
    else
      match serializeElems xs ((emitStatement st write_init_array).push
          (NamespaceKey.array 0)) with
      | .error e => .error e
      | .ok st2 => .ok st2.pop
  | .obj kvs, st =>
    if st.ctx.finish then .error .eof
    else serializeEntries kvs (emitStatement st write_init_object)

/-- The `serialize_element` loop of the array case of `serde_json::Value`:
serialize each element, then bump the trailing `Array` counter. -/
def serializeElems : List Value → SerState → Except Error SerState
  | [], st => .ok st
  | v :: vs, st =>
    match serializeValue v st with
    | .error e => .error e
    | .ok st1 => serializeElems vs st1.bump

/-- The `serialize_entry` loop of the object case of `serde_json::Value`:
push the transformed key, serialize the child value, pop. -/
def serializeEntries : List (String × Value) → SerState → Except Error SerState
  | [], st => .ok st
  | (k, v) :: rest, st =>
    match serializeValue v (st.push (NamespaceKey.object (mapKey k))) with
    | .error e => .error e
    | .ok st2 => serializeEntries rest st2.pop

end

/-- The fresh serializer state built by `to_writer_with`: an empty
in-memory writer and `Context::new_with_root_name(root_name)`. -/
def initState (root_name : String) : SerState :=
  { out := "", ctx := Context.new_with_root_name root_name }

/-- Rust `to_string_with` for `FormatType::Regular`: run the
serializer on a fresh context over an empty in-memory writer and return
the accumulated text. -/
def to_string_with (value : Value) (root_name : String) : Except Error String :=
  match serializeValue value (initState root_name) with
  | .error e => .error e
  | .ok st => .ok st.out

/-- Rust `to_string`: `to_string_with` with the default root name `json`. -/
def to_string (value : Value) : Except Error String :=
  to_string_with value "json"

/-- The text one namespace segment contributes to a rendered path:
`[n]` for an array index, and for an object key the identifier form `.k`
or the bracket form `["k"]` according to `RE_OBJECT_KEY`. -/
def segText : NamespaceKey → String
  | .array n => "[" ++ toString n ++ "]"
  | .object k => if reObjectKeyMatch k then "." ++ k else "[\"" ++ k ++ "\"]"

/-- The concatenated text of a list of namespace segments. -/
def segsText : List NamespaceKey → String
  | [] => ""
  | x :: t => segText x ++ segsText t

/-- Whether a value is a scalar (null, boolean, number or string), as
opposed to a container (array or object). -/
def Value.isScalar : Value → Bool
  | .null | .bool _ | .int _ | .float _ | .str _ => true
  | .arr _ | .obj _ => false

/-- Whether a value is a scalar other than a boolean. (Booleans are set
apart because `serialize_bool` does not call `write_end_of_line`.) -/
def Value.isNonBoolScalar : Value → Bool
  | .null | .int _ | .float _ | .str _ => true
  | .bool _ | .arr _ | .obj _ => false

/-- The rendered value text of a scalar, as produced by the
`RegularFormatter` writer for that scalar kind. -/
def renderScalar : Value → String
  | .null => write_null
  | .bool b => write_bool b
  | .int n => toString n
  | .float rendered => rendered
  | .str s => write_string s
  | .arr _ => ""
  | .obj _ => ""

/-- Number of newline characters in a string; the number of
newline-terminated lines of an output text. -/
def countNewlines (s : String) : Nat :=
  s.data.countP (fun c => c = '\n')

/-- Number of backslash characters in a character list. Escaping strictly
increases this count (every escape sequence starts with a backslash), and
the quote-trimming of the key transformation never removes a backslash,
which drives the converse direction of C4. -/
def countBackslash (l : List Char) : Nat :=
  l.countP (fun c => c = '\\')

/-- The pattern `^[A-Za-z][A-Za-z0-9_]*$` stated as a proposition, as the
specification words it: the key starts with an ASCII letter, followed by
zero or more ASCII letters, digits or underscores. -/
def IdentLike (k : String) : Prop :=
  ∃ c cs, k.data = c :: cs
    ∧ (('a' ≤ c ∧ c ≤ 'z') ∨ ('A' ≤ c ∧ c ≤ 'Z'))
    ∧ ∀ x ∈ cs,
        ('a' ≤ x ∧ x ≤ 'z') ∨ ('A' ≤ x ∧ x ≤ 'Z') ∨ ('0' ≤ x ∧ x ≤ '9') ∨ x = '_'

/-- Expected statement lines for the elements of an array of scalars,
starting at index `i`: one line `<root>[<idx>] = <rendered>;` per element. -/
def scalarLines (rt : String) : Nat → List Value → String
  | _, [] => ""
  | i, v :: vs =>
    rt ++ "[" ++ toString i ++ "]" ++ " = " ++ renderScalar v ++ ";\n"
      ++ scalarLines rt (i + 1) vs

/-- Expected statement lines for the entries of an object of scalars:
one line per entry, in insertion order, with the transformed key rendered
by the identifier-vs-bracket rule. -/
def entryLines (rt : String) : List (String × Value) → String
  | [] => ""
  | (k, v) :: rest =>
    write_key_object rt (mapKey k) ++ " = " ++ renderScalar v ++ ";\n"
      ++ entryLines rt rest


/-! ## Path rendering and state lemmas -/



theorem renderSeg_eq (res : String) (ns : NamespaceKey) :
    renderSeg res ns = res ++ segText ns := by
  cases ns with
  | array n => simp [renderSeg, segText, String.append_assoc]
  | object k =>
    simp only [renderSeg, segText, write_key_object]
    by_cases h : reObjectKeyMatch k <;> simp [h, String.append_assoc]

theorem write_key_eq (nss : List NamespaceKey) (r : String) :
    write_key r nss = r ++ segsText nss := by
  induction nss generalizing r with
  | nil => simp [write_key, segsText]
  | cons x t ih =>
    show List.foldl renderSeg (renderSeg r x) t = r ++ segsText (x :: t)
    rw [show List.foldl renderSeg (renderSeg r x) t = write_key (renderSeg r x) t from rfl]
    rw [ih, renderSeg_eq, segsText, String.append_assoc]

theorem segsText_append (l1 l2 : List NamespaceKey) :
    segsText (l1 ++ l2) = segsText l1 ++ segsText l2 := by
  induction l1 with
  | nil => simp [segsText]
  | cons x t ih => simp [segsText, ih, String.append_assoc]

theorem isEmpty_concat {α : Type} (l : List α) (a : α) : (l ++ [a]).isEmpty = false := by
  cases l <;> rfl

theorem bumpLast_concat (l : List NamespaceKey) (i : Nat) :
    bumpLast (l ++ [NamespaceKey.array i]) = l ++ [NamespaceKey.array (i + 1)] := by
  induction l with
  | nil => rfl
  | cons x t ih =>
    cases t with
    | nil => simp [bumpLast]
    | cons y u => simp only [List.cons_append, bumpLast] at *; simp [ih]



theorem finishIfRoot_setOut (st : SerState) (h : st.ctx.finish = false) (o : String) :
    SerState.finishIfRoot ⟨o, st.ctx⟩
      = ⟨o, ⟨st.ctx.ns_root, st.ctx.ns, st.ctx.ns.isEmpty⟩⟩ := by
  obtain ⟨o0, rt, ns, f⟩ := st
  simp only at h
  subst h
  unfold SerState.finishIfRoot Context.is_root
  cases hE : ns.isEmpty <;> simp [hE]



mutual

theorem serializeValue_spec (v : Value) (st : SerState) (h : st.ctx.finish = false) :
    ∃ t : String, serializeValue v st =
      .ok ⟨st.out ++ t, ⟨st.ctx.ns_root, st.ctx.ns, st.ctx.ns.isEmpty && v.isScalar⟩⟩ := by
  cases v with
  | null =>
    refine ⟨write_key st.ctx.ns_root st.ctx.ns ++ write_key_value_delimiter
      ++ write_null ++ write_end_of_line, ?_⟩
    simp only [serializeValue, h, Bool.false_eq_true, if_false, emitStatement]
    rw [finishIfRoot_setOut st h]
    simp [Value.isScalar, String.append_assoc]
  | bool b =>
    refine ⟨write_key st.ctx.ns_root st.ctx.ns ++ write_key_value_delimiter
      ++ write_bool b, ?_⟩
    simp only [serializeValue, h, Bool.false_eq_true, if_false]
    rw [finishIfRoot_setOut st h]
    simp [Value.isScalar, String.append_assoc]
  | int n =>
    refine ⟨write_key st.ctx.ns_root st.ctx.ns ++ write_key_value_delimiter
      ++ toString n ++ write_end_of_line, ?_⟩
    simp only [serializeValue, h, Bool.false_eq_true, if_false, emitStatement]
    rw [finishIfRoot_setOut st h]
    simp [Value.isScalar, String.append_assoc]
  | float rendered =>
    refine ⟨write_key st.ctx.ns_root st.ctx.ns ++ write_key_value_delimiter
      ++ rendered ++ write_end_of_line, ?_⟩
    simp only [serializeValue, h, Bool.false_eq_true, if_false, emitStatement]
    rw [finishIfRoot_setOut st h]
    simp [Value.isScalar, String.append_assoc]
  | str s =>
    refine ⟨write_key st.ctx.ns_root st.ctx.ns ++ write_key_value_delimiter
      ++ write_string s ++ write_end_of_line, ?_⟩
    simp only [serializeValue, h, Bool.false_eq_true, if_false, emitStatement]
    rw [finishIfRoot_setOut st h]
    simp [Value.isScalar, String.append_assoc]
  | arr xs =>
    have hfin : ((emitStatement st write_init_array).push (NamespaceKey.array 0)).ctx.finish
        = false := by simp [emitStatement, SerState.push, h]
    have hns : ((emitStatement st write_init_array).push (NamespaceKey.array 0)).ctx.ns
        = st.ctx.ns ++ [NamespaceKey.array 0] := by simp [emitStatement, SerState.push]
    obtain ⟨t2, ht2⟩ := serializeElems_spec xs
      ((emitStatement st write_init_array).push (NamespaceKey.array 0)) st.ctx.ns 0 hfin hns
    refine ⟨write_key st.ctx.ns_root st.ctx.ns ++ write_key_value_delimiter
      ++ write_init_array ++ write_end_of_line ++ t2, ?_⟩
    simp only [serializeValue, h, Bool.false_eq_true, if_false]
    rw [ht2]
    simp [SerState.pop, emitStatement, SerState.push, List.dropLast_concat,
      Value.isScalar, String.append_assoc]
  | obj kvs =>
    have hfin : (emitStatement st write_init_object).ctx.finish = false := by
      simp [emitStatement, h]
    obtain ⟨t2, ht2⟩ := serializeEntries_spec kvs (emitStatement st write_init_object) hfin
    refine ⟨write_key st.ctx.ns_root st.ctx.ns ++ write_key_value_delimiter
      ++ write_init_object ++ write_end_of_line ++ t2, ?_⟩
    simp only [serializeValue, h, Bool.false_eq_true, if_false]
    rw [ht2]
    simp [emitStatement, Value.isScalar, String.append_assoc]

theorem serializeElems_spec (vs : List Value) (st : SerState) (l : List NamespaceKey) (i : Nat)
    (h : st.ctx.finish = false) (hns : st.ctx.ns = l ++ [NamespaceKey.array i]) :
    ∃ t : String, serializeElems vs st =
      .ok ⟨st.out ++ t, ⟨st.ctx.ns_root, l ++ [NamespaceKey.array (i + vs.length)], false⟩⟩ := by
  cases vs with
  | nil =>
    refine ⟨"", ?_⟩
    obtain ⟨o, rt, ns, f⟩ := st
    simp only at h hns
    subst h; subst hns
    simp [serializeElems]
  | cons v vs =>
    obtain ⟨tv, htv⟩ := serializeValue_spec v st h
    rw [hns, isEmpty_concat, Bool.false_and] at htv
    obtain ⟨t', ht'⟩ := serializeElems_spec vs
      ⟨st.out ++ tv, ⟨st.ctx.ns_root, l ++ [NamespaceKey.array (i + 1)], false⟩⟩
      l (i + 1) rfl rfl
    refine ⟨tv ++ t', ?_⟩
    simp only [serializeElems]
    rw [htv]
    show serializeElems vs
        (⟨st.out ++ tv, ⟨st.ctx.ns_root, l ++ [NamespaceKey.array i], false⟩⟩ : SerState).bump
      = _
    have hb : (⟨st.out ++ tv, ⟨st.ctx.ns_root, l ++ [NamespaceKey.array i], false⟩⟩
        : SerState).bump
        = ⟨st.out ++ tv, ⟨st.ctx.ns_root, l ++ [NamespaceKey.array (i + 1)], false⟩⟩ := by
      simp [SerState.bump, bumpLast_concat]
    rw [hb, ht']
    have harith : i + 1 + vs.length = i + (vs.length + 1) := by omega
    simp [harith, String.append_assoc]

theorem serializeEntries_spec (kvs : List (String × Value)) (st : SerState)
    (h : st.ctx.finish = false) :
    ∃ t : String, serializeEntries kvs st =
      .ok ⟨st.out ++ t, ⟨st.ctx.ns_root, st.ctx.ns, false⟩⟩ := by
  cases kvs with
  | nil =>
    refine ⟨"", ?_⟩
    obtain ⟨o, rt, ns, f⟩ := st
    simp only at h
    subst h
    simp [serializeEntries]
  | cons kv rest =>
    obtain ⟨k, v⟩ := kv
    have hfin : (st.push (NamespaceKey.object (mapKey k))).ctx.finish = false := by
      simp [SerState.push, h]
    obtain ⟨tv, htv⟩ := serializeValue_spec v (st.push (NamespaceKey.object (mapKey k))) hfin
    simp only [SerState.push, isEmpty_concat, Bool.false_and] at htv
    obtain ⟨t', ht'⟩ := serializeEntries_spec rest
      ⟨st.out ++ tv, ⟨st.ctx.ns_root, st.ctx.ns, false⟩⟩ rfl
    refine ⟨tv ++ t', ?_⟩
    simp only [serializeEntries, SerState.push]
    rw [htv]
    show serializeEntries rest
        (⟨st.out ++ tv,
          ⟨st.ctx.ns_root, st.ctx.ns ++ [NamespaceKey.object (mapKey k)], false⟩⟩
          : SerState).pop
      = _
    have hp : (⟨st.out ++ tv,
        ⟨st.ctx.ns_root, st.ctx.ns ++ [NamespaceKey.object (mapKey k)], false⟩⟩
        : SerState).pop
        = ⟨st.out ++ tv, ⟨st.ctx.ns_root, st.ctx.ns, false⟩⟩ := by
      simp [SerState.pop, List.dropLast_concat]
    rw [hp, ht']
    simp [String.append_assoc]

end



theorem serializeValue_finished (w : Value) (st : SerState) (h : st.ctx.finish = true) :
    serializeValue w st = .error Error.eof := by
  cases w <;> simp [serializeValue, h]

theorem serializeValue_scalar (v : Value) (hv : v.isNonBoolScalar = true) (st : SerState)
    (h : st.ctx.finish = false) :
    serializeValue v st = .ok ⟨st.out ++ write_key st.ctx.ns_root st.ctx.ns
      ++ write_key_value_delimiter ++ renderScalar v ++ write_end_of_line,
      ⟨st.ctx.ns_root, st.ctx.ns, st.ctx.ns.isEmpty⟩⟩ := by
  cases v with
  | bool b => simp [Value.isNonBoolScalar] at hv
  | arr xs => simp [Value.isNonBoolScalar] at hv
  | obj kvs => simp [Value.isNonBoolScalar] at hv
  | null =>
    simp only [serializeValue, h, Bool.false_eq_true, if_false, emitStatement]
    rw [finishIfRoot_setOut st h]
    simp [renderScalar]
  | int n =>
    simp only [serializeValue, h, Bool.false_eq_true, if_false, emitStatement]
    rw [finishIfRoot_setOut st h]
    simp [renderScalar]
  | float rendered =>
    simp only [serializeValue, h, Bool.false_eq_true, if_false, emitStatement]
    rw [finishIfRoot_setOut st h]
    simp [renderScalar]
  | str s =>
    simp only [serializeValue, h, Bool.false_eq_true, if_false, emitStatement]
    rw [finishIfRoot_setOut st h]
    simp [renderScalar]

theorem serializeElems_scalar (vs : List Value) (hv : ∀ v ∈ vs, v.isNonBoolScalar = true)
    (o rt : String) (i : Nat) :
    serializeElems vs ⟨o, ⟨rt, [NamespaceKey.array i], false⟩⟩
      = .ok ⟨o ++ scalarLines rt i vs, ⟨rt, [NamespaceKey.array (i + vs.length)], false⟩⟩ := by
  induction vs generalizing o i with
  | nil => simp [serializeElems, scalarLines]
  | cons v vs ih =>
    have hsv := serializeValue_scalar v (hv v (by simp))
      ⟨o, ⟨rt, [NamespaceKey.array i], false⟩⟩ rfl
    simp only [List.isEmpty_cons] at hsv
    simp only [serializeElems]
    rw [hsv]
    show serializeElems vs (SerState.bump _) = _
    have hb : (SerState.bump ⟨o ++ write_key rt [NamespaceKey.array i]
        ++ write_key_value_delimiter ++ renderScalar v ++ write_end_of_line,
        ⟨rt, [NamespaceKey.array i], false⟩⟩)
        = ⟨o ++ write_key rt [NamespaceKey.array i]
            ++ write_key_value_delimiter ++ renderScalar v ++ write_end_of_line,
           ⟨rt, [NamespaceKey.array (i + 1)], false⟩⟩ := by
      simp [SerState.bump, bumpLast]
    rw [hb, ih (fun v hm => hv v (by simp [hm]))]
    have hwk : write_key rt [NamespaceKey.array i] = rt ++ "[" ++ toString i ++ "]" := rfl
    have harith : i + 1 + vs.length = i + (vs.length + 1) := by omega
    simp [hwk, scalarLines, harith, String.append_assoc, write_key_value_delimiter,
      write_end_of_line]

theorem serializeEntries_scalar (kvs : List (String × Value))
    (hv : ∀ p ∈ kvs, (p.2).isNonBoolScalar = true) (o rt : String) :
    serializeEntries kvs ⟨o, ⟨rt, [], false⟩⟩
      = .ok ⟨o ++ entryLines rt kvs, ⟨rt, [], false⟩⟩ := by
  induction kvs generalizing o with
  | nil => simp [serializeEntries, entryLines]
  | cons kv rest ih =>
    obtain ⟨k, v⟩ := kv
    have hsv := serializeValue_scalar v (hv (k, v) (by simp))
      (SerState.push ⟨o, ⟨rt, [], false⟩⟩ (NamespaceKey.object (mapKey k))) rfl
    simp only [SerState.push, List.nil_append, List.isEmpty_cons] at hsv
    simp only [serializeEntries, SerState.push, List.nil_append]
    rw [hsv]
    show serializeEntries rest (SerState.pop _) = _
    have hp : (SerState.pop ⟨o ++ write_key rt [NamespaceKey.object (mapKey k)]
        ++ write_key_value_delimiter ++ renderScalar v ++ write_end_of_line,
        ⟨rt, [NamespaceKey.object (mapKey k)], false⟩⟩)
        = ⟨o ++ write_key rt [NamespaceKey.object (mapKey k)]
            ++ write_key_value_delimiter ++ renderScalar v ++ write_end_of_line,
           ⟨rt, [], false⟩⟩ := by
      simp [SerState.pop]
    rw [hp, ih (fun p hm => hv p (by simp [hm]))]
    have hwk : write_key rt [NamespaceKey.object (mapKey k)]
        = write_key_object rt (mapKey k) := rfl
    simp [hwk, entryLines, String.append_assoc, write_key_value_delimiter, write_end_of_line]


theorem reObjectKeyMatch_iff (k : String) : reObjectKeyMatch k = true ↔ IdentLike k := by
  unfold reObjectKeyMatch IdentLike
  cases hd : k.data with
  | nil => simp [hd]
  | cons c cs =>
    simp only [hd, isAsciiAlpha, isIdentTail, List.all_eq_true, Bool.or_eq_true,
      Bool.and_eq_true, decide_eq_true_eq]
    constructor
    · rintro ⟨h1, h2⟩
      exact ⟨c, cs, rfl, h1, fun x hx => by have := h2 x hx; tauto⟩
    · rintro ⟨c2, cs2, hEq, h1, h2⟩
      simp only [List.cons.injEq] at hEq
      obtain ⟨h3, h4⟩ := hEq
      subst h3
      subst h4
      exact ⟨h1, fun x hx => by have := h2 x hx; tauto⟩

theorem flatten_map_id (l : List Char) (h : ∀ c ∈ l, jsonEscapeChar c = [c]) :
    (l.map jsonEscapeChar).flatten = l := by
  induction l with
  | nil => rfl
  | cons c t ih =>
    simp only [List.map_cons, List.flatten_cons,
      h c (List.mem_cons_self c t),
      ih (fun x hx => h x (List.mem_cons_of_mem c hx)), List.singleton_append]

theorem plain_not_quote (c : Char) (h : jsonEscapeChar c = [c]) : (c = '"') = False := by
  by_cases hc : c = '"'
  · subst hc
    simp [jsonEscapeChar] at h
  · simp [hc]

theorem dropWhile_no_match (p : Char → Bool) (l : List Char) (h : ∀ x ∈ l, p x = false) :
    l.dropWhile p = l := by
  cases l with
  | nil => rfl
  | cons a t => simp [List.dropWhile_cons, h a (List.mem_cons_self a t)]


theorem mapKey_of_plain (k : String) (h : ∀ c ∈ k.data, jsonEscapeChar c = [c]) :
    mapKey k = k := by
  obtain ⟨l⟩ := k
  simp only [String.data] at h
  have hq : ∀ c ∈ l, (decide (c = '"')) = false := by
    intro c hc
    have hnq := plain_not_quote c (h c hc)
    simp [hnq]
  unfold mapKey jsonQuote trimQuotes
  simp only [String.data, flatten_map_id l h]
  congr 1
  cases l with
  | nil => simp
  | cons c t =>
    have hpc : (decide (c = '"')) = false := hq c (List.mem_cons_self c t)
    simp only [List.cons_append, List.dropWhile_cons, decide_True, if_true, hpc,
      Bool.false_eq_true, if_false]
    rw [show ((c :: (t ++ ['"'])).reverse) = '"' :: (t.reverse ++ [c]) by
      simp [List.reverse_cons, List.reverse_append]]
    simp only [List.dropWhile_cons, decide_True, if_true]
    rw [dropWhile_no_match _ _ (by
      intro x hx
      rcases List.mem_append.mp hx with hx1 | hx2
      · exact hq x (List.mem_cons_of_mem c (List.mem_reverse.mp hx1))
      · simp only [List.mem_singleton] at hx2
        subst hx2
        exact hpc)]
    simp [List.reverse_append]

theorem hexDigitChar_ne_backslash : ∀ n < 16, hexDigitChar n ≠ '\\' := by decide

theorem countBackslash_jsonEscapeChar (c : Char) :
    (jsonEscapeChar c = [c] ∧ countBackslash (jsonEscapeChar c) = countBackslash [c])
    ∨ countBackslash [c] + 1 ≤ countBackslash (jsonEscapeChar c) := by
  unfold jsonEscapeChar
  split_ifs with h1 h2 h3 h4 h5 h6 h7 h8
  · subst h1; right; decide
  · subst h2; right; decide
  · right
    have hc : (c = '\\') = False := by
      simp only [eq_iff_iff, iff_false]
      intro hcc
      subst hcc
      exact absurd h3 (by decide)
    simp [countBackslash, List.countP_cons, hc]
  · right
    have hc : (c = '\\') = False := by
      simp only [eq_iff_iff, iff_false]
      intro hcc
      subst hcc
      exact absurd h4 (by decide)
    simp [countBackslash, List.countP_cons, hc]
  · right
    have hc : (c = '\\') = False := by
      simp only [eq_iff_iff, iff_false]
      intro hcc
      subst hcc
      exact absurd h5 (by decide)
    simp [countBackslash, List.countP_cons, hc]
  · right
    have hc : (c = '\\') = False := by
      simp only [eq_iff_iff, iff_false]
      intro hcc
      subst hcc
      exact absurd h6 (by decide)
    simp [countBackslash, List.countP_cons, hc]
  · right
    have hc : (c = '\\') = False := by
      simp only [eq_iff_iff, iff_false]
      intro hcc
      subst hcc
      exact absurd h7 (by decide)
    simp [countBackslash, List.countP_cons, hc]
  · right
    have hc : (c = '\\') = False := by
      simp only [eq_iff_iff, iff_false]
      intro hcc
      subst hcc
      exact absurd h8 (by decide)
    have hx1 : (hexDigitChar (c.toNat / 16) = '\\') = False := by
      simp only [eq_iff_iff, iff_false]
      exact hexDigitChar_ne_backslash _ (by omega)
    have hx2 : (hexDigitChar (c.toNat % 16) = '\\') = False := by
      simp only [eq_iff_iff, iff_false]
      exact hexDigitChar_ne_backslash _ (Nat.mod_lt _ (by omega))
    simp [countBackslash, List.countP_cons, hc, hx1, hx2]
  · left
    exact ⟨rfl, rfl⟩

theorem countBackslash_cons (c : Char) (t : List Char) :
    countBackslash (c :: t) = countBackslash [c] + countBackslash t := by
  simp [countBackslash, List.countP_cons]
  omega

theorem countBackslash_append (l1 l2 : List Char) :
    countBackslash (l1 ++ l2) = countBackslash l1 + countBackslash l2 := by
  simp [countBackslash, List.countP_append]

theorem countBackslash_flatten_ge (l : List Char) :
    countBackslash l ≤ countBackslash ((l.map jsonEscapeChar).flatten) := by
  induction l with
  | nil => simp [countBackslash]
  | cons c t ih =>
    rw [List.map_cons, List.flatten_cons, countBackslash_cons, countBackslash_append]
    rcases countBackslash_jsonEscapeChar c with ⟨_, heq⟩ | hgt
    · omega
    · omega

theorem countBackslash_flatten_gt (l : List Char)
    (h : ∃ c ∈ l, jsonEscapeChar c ≠ [c]) :
    countBackslash l + 1 ≤ countBackslash ((l.map jsonEscapeChar).flatten) := by
  induction l with
  | nil => simp at h
  | cons c t ih =>
    rw [List.map_cons, List.flatten_cons, countBackslash_cons, countBackslash_append]
    rcases h with ⟨c2, hm, hne⟩
    rcases List.mem_cons.mp hm with rfl | hmt
    · rcases countBackslash_jsonEscapeChar c2 with ⟨heq, _⟩ | hgt
      · exact absurd heq hne
      · have := countBackslash_flatten_ge t
        omega
    · have h1 := ih ⟨c2, hmt, hne⟩
      rcases countBackslash_jsonEscapeChar c with ⟨_, heq⟩ | hgt
      · omega
      · omega

theorem countBackslash_dropWhile_quote (l : List Char) :
    countBackslash (l.dropWhile (fun c => c = '"')) = countBackslash l := by
  induction l with
  | nil => rfl
  | cons a t ih =>
    by_cases ha : a = '"'
    · subst ha
      rw [List.dropWhile_cons]
      simp only [decide_True, if_true]
      rw [ih, countBackslash_cons]
      have : countBackslash ['"'] = 0 := by decide
      omega
    · rw [List.dropWhile_cons]
      simp [ha]

theorem countBackslash_reverse (l : List Char) :
    countBackslash l.reverse = countBackslash l :=
  (List.reverse_perm l).countP_eq _

theorem countBackslash_mapKey (k : String) :
    countBackslash (mapKey k).data
      = countBackslash ((k.data.map jsonEscapeChar).flatten) := by
  unfold mapKey trimQuotes jsonQuote
  simp only [countBackslash_reverse, countBackslash_dropWhile_quote]
  rw [countBackslash_append, countBackslash_cons]
  have h1 : countBackslash ['"'] = 0 := by decide
  omega


/-! ## Claim theorems -/

/-- C1: the spec states that every scalar root (null, boolean, integer,
float, string) serializes to the single line `json = <rendered>;` followed
by a newline. The code violates this for booleans: `serialize_bool` never
calls `write_end_of_line`, so a boolean root yields `json = true` with no
`;` and no newline, while every other scalar kind is properly terminated. -/
theorem claim_c1_bool_missing_terminator :
    to_string (Value.bool true) = .ok "json = true"
    ∧ to_string (Value.bool false) = .ok "json = false"
    ∧ to_string Value.null = .ok "json = null;\n"
    ∧ to_string (Value.int (-7)) = .ok "json = -7;\n"
    ∧ to_string (Value.float "1.5") = .ok "json = 1.5;\n"
    ∧ to_string (Value.str "abc") = .ok "json = \"abc\";\n" := by
  refine ⟨?_, ?_, ?_, ?_, ?_, ?_⟩ <;>
    (simp only [to_string, to_string_with, serializeValue, initState,
      Context.new_with_root_name]; decide)

/-- C2, counterexample: the claim asserts that after any completed
top-level serialization, container roots included, the finish flag is true
and a second serialize call fails with the Eof error. For the container
root `[]` the code leaves the flag false and a second call on the same
context succeeds and emits the root statement again. -/
theorem claim_c2_counterexample :
    serializeValue (Value.arr []) (initState "json")
      = .ok ⟨"json = [];\n", ⟨"json", [], false⟩⟩
    ∧ (⟨"json = [];\n", ⟨"json", [], false⟩⟩ : SerState).ctx.finish ≠ true
    ∧ serializeValue (Value.arr []) ⟨"json = [];\n", ⟨"json", [], false⟩⟩
        = .ok ⟨"json = [];\njson = [];\n", ⟨"json", [], false⟩⟩
    ∧ serializeValue (Value.arr []) ⟨"json = [];\n", ⟨"json", [], false⟩⟩
        ≠ .error Error.eof := by
  refine ⟨?_, by decide, ?_, ?_⟩ <;>
    (simp only [serializeValue, serializeElems, initState, Context.new_with_root_name]
     decide)

/-- C2, amended: after a completed top-level serialization the finish flag
equals "the root value was a scalar". When it is set (scalar root), every
further serialize call through the context fails with the Eof error; when
the root was a container the flag stays false and a second call is
accepted (and silently emits again). -/
theorem claim_c2_amended (v : Value) (r : String) (st2 : SerState)
    (hok : serializeValue v (initState r) = .ok st2) :
    st2.ctx.finish = v.isScalar
    ∧ (v.isScalar = true → ∀ w, serializeValue w st2 = .error Error.eof)
    ∧ (v.isScalar = false → ∀ w, ∃ st3, serializeValue w st2 = .ok st3) := by
  obtain ⟨t, ht⟩ := serializeValue_spec v (initState r) rfl
  simp only [initState, Context.new_with_root_name, List.isEmpty_nil, Bool.true_and] at ht hok
  rw [ht] at hok
  injection hok with h2
  subst h2
  refine ⟨rfl, fun hs w => serializeValue_finished w _ hs, fun hs w => ?_⟩
  obtain ⟨t2, ht2⟩ := serializeValue_spec w ⟨"" ++ t, ⟨r, [], v.isScalar⟩⟩ (by exact hs)
  exact ⟨_, ht2⟩

/-- C2, witness: a scalar root (`7`) marks the context finished, and a
second serialize call through it fails with the Eof error. -/
theorem claim_c2_witness :
    serializeValue (Value.int 8) ⟨"json = 7;\n", ⟨"json", [], true⟩⟩
      = .error Error.eof :=
  (claim_c2_amended (Value.int 7) "json" ⟨"json = 7;\n", ⟨"json", [], true⟩⟩
    (by simp only [serializeValue, initState, Context.new_with_root_name]
        decide)).2.1 rfl (Value.int 8)

/-- C3: an object key renders as `.k` exactly when it matches
`^[A-Za-z][A-Za-z0-9_]*$`, and as `["k"]` otherwise, and the rendering of
the segment depends only on the key itself, never on the neighboring
segments (`pre` and `post` are arbitrary). -/
theorem claim_c3_key_quoting (k r : String) (pre post : List NamespaceKey) :
    (reObjectKeyMatch k = true ↔ IdentLike k)
    ∧ write_key r (pre ++ NamespaceKey.object k :: post)
        = write_key r pre
          ++ (if reObjectKeyMatch k then "." ++ k else "[\"" ++ k ++ "\"]")
          ++ segsText post := by
  refine ⟨reObjectKeyMatch_iff k, ?_⟩
  rw [write_key_eq, write_key_eq, segsText_append]
  simp only [segsText, segText]
  simp [String.append_assoc]

/-- C4, counterexample: the claim asserts the path segment always equals
the native key with no transformation. For the key `a"b` the code first
JSON-escapes the key (`serde_json::to_string` + `trim_matches`), so the
segment is `a\"b`, not `a"b`, and the emitted line shows the escaped
form. -/
theorem claim_c4_counterexample :
    mapKey "a\"b" = "a\\\"b"
    ∧ ("a\\\"b" : String) ≠ "a\"b"
    ∧ to_string (Value.obj [("a\"b", Value.int 1)])
        = .ok "json = \x7b\x7d;\njson[\"a\\\"b\"] = 1;\n" := by
  refine ⟨by decide, by decide, ?_⟩
  simp only [to_string, to_string_with, serializeValue, serializeEntries, initState,
    Context.new_with_root_name]
  decide

/-- C4, amended: the key string used as the path segment equals the native
key verbatim if and only if the key contains no character that serde_json
escapes (no double quote, no backslash, no control character below 0x20);
a key containing any such character never reaches the path verbatim (the
segment is then the JSON-escaped text with the leading and trailing
double-quote characters stripped, as the counterexample shows for the key
a"b). The converse direction rests on counting backslashes: escaping
strictly increases their number and quote-trimming never removes one. -/
theorem claim_c4_amended (k : String) :
    mapKey k = k ↔ ∀ c ∈ k.data, jsonEscapeChar c = [c] := by
  constructor
  · intro heq
    by_contra hnot
    push_neg at hnot
    have h1 := countBackslash_flatten_gt k.data hnot
    have h2 := countBackslash_mapKey k
    rw [heq] at h2
    omega
  · exact mapKey_of_plain k

/-- C5: serializing `[1,[2,3],4]` with the default root name produces the
six statements in order, the parent array index counter resuming at `2`
after the nested array. -/
theorem claim_c5_nested_array :
    to_string (Value.arr [Value.int 1, Value.arr [Value.int 2, Value.int 3], Value.int 4])
      = .ok "json = [];\njson[0] = 1;\njson[1] = [];\njson[1][0] = 2;\njson[1][1] = 3;\njson[2] = 4;\n" := by
  simp only [to_string, to_string_with, serializeValue, serializeElems, initState,
    Context.new_with_root_name]
  decide


/-- C6, counterexample: the claim asserts every non-empty array of length
n yields exactly n+1 newline-terminated lines, one line per element of
every kind including booleans. Both parts fail: a nested array element
contributes several lines (`[[1]]` has 3 newline-terminated lines, not 2),
and a boolean element gets no terminator at all (`[true]` has 1
newline-terminated line, not 2). -/
theorem claim_c6_counterexample :
    to_string (Value.arr [Value.arr [Value.int 1]])
      = .ok "json = [];\njson[0] = [];\njson[0][0] = 1;\n"
    ∧ countNewlines "json = [];\njson[0] = [];\njson[0][0] = 1;\n" = 3
    ∧ (3 : Nat) ≠ 1 + 1
    ∧ to_string (Value.arr [Value.bool true]) = .ok "json = [];\njson[0] = true"
    ∧ countNewlines "json = [];\njson[0] = true" = 1
    ∧ (1 : Nat) ≠ 1 + 1 := by
  refine ⟨?_, by decide, by decide, ?_, by decide, by decide⟩ <;>
    (simp only [to_string, to_string_with, serializeValue, serializeElems, initState,
      Context.new_with_root_name]
     decide)

/-- C6, amended: for every array whose elements are all non-boolean
scalars, the output is exactly the container-init line `json = [];`
followed by one statement line per element in index order, with paths
`json[0]`, `json[1]`, and so on (booleans are excluded because
`serialize_bool` omits the statement terminator; container elements
produce additional lines of their own). -/
theorem claim_c6_amended (xs : List Value) (_hne : xs ≠ [])
    (hv : ∀ v ∈ xs, v.isNonBoolScalar = true) :
    to_string (Value.arr xs) = .ok ("json = [];\n" ++ scalarLines "json" 0 xs) := by
  have harr : serializeValue (Value.arr xs) (initState "json")
      = .ok ⟨"json = [];\n" ++ scalarLines "json" 0 xs, ⟨"json", [], false⟩⟩ := by
    simp only [serializeValue, initState, Context.new_with_root_name, Bool.false_eq_true,
      if_false]
    rw [show (emitStatement ⟨"", ⟨"json", [], false⟩⟩ write_init_array).push
          (NamespaceKey.array 0)
        = (⟨"json = [];\n", ⟨"json", [NamespaceKey.array 0], false⟩⟩ : SerState) from by decide]
    rw [serializeElems_scalar xs hv "json = [];\n" "json" 0]
    show Except.ok (SerState.pop _) = _
    simp [SerState.pop]
  simp only [to_string, to_string_with]
  rw [harr]

/-- C6, witness: the amended statement at the concrete array
`[null, 5]`. -/
theorem claim_c6_witness :
    to_string (Value.arr [Value.null, Value.int 5])
      = .ok ("json = [];\n" ++ scalarLines "json" 0 [Value.null, Value.int 5]) :=
  claim_c6_amended [Value.null, Value.int 5] (by simp) (by decide)

/-- C7, counterexample: the claim asserts every non-empty object yields
exactly 1 + number-of-entries lines. A nested object value contributes
several lines (3 newline-terminated lines for one entry), and a boolean
value gets no terminator, merging its line with the next statement. -/
theorem claim_c7_counterexample :
    to_string (Value.obj [("a", Value.obj [("b", Value.int 1)])])
      = .ok "json = \x7b\x7d;\njson.a = \x7b\x7d;\njson.a.b = 1;\n"
    ∧ countNewlines "json = \x7b\x7d;\njson.a = \x7b\x7d;\njson.a.b = 1;\n" = 3
    ∧ (3 : Nat) ≠ 1 + 1
    ∧ to_string (Value.obj [("a", Value.bool true), ("b", Value.int 1)])
        = .ok "json = \x7b\x7d;\njson.a = truejson.b = 1;\n"
    ∧ countNewlines "json = \x7b\x7d;\njson.a = truejson.b = 1;\n" = 2
    ∧ (2 : Nat) ≠ 1 + 2 := by
  refine ⟨?_, by decide, by decide, ?_, by decide, by decide⟩ <;>
    (simp only [to_string, to_string_with, serializeValue, serializeEntries, initState,
      Context.new_with_root_name]
     decide)

/-- C7, amended: for every object whose values are all non-boolean
scalars, the output is exactly the container-init line followed by one
statement line per entry, in insertion order, each key rendered through
the key transformation and the identifier-vs-bracket rule; repeated keys
each emit their own statement. -/
theorem claim_c7_amended (kvs : List (String × Value)) (_hne : kvs ≠ [])
    (hv : ∀ p ∈ kvs, (p.2).isNonBoolScalar = true) :
    to_string (Value.obj kvs) = .ok ("json = \x7b\x7d;\n" ++ entryLines "json" kvs) := by
  have hobj : serializeValue (Value.obj kvs) (initState "json")
      = .ok ⟨"json = \x7b\x7d;\n" ++ entryLines "json" kvs, ⟨"json", [], false⟩⟩ := by
    simp only [serializeValue, initState, Context.new_with_root_name, Bool.false_eq_true,
      if_false]
    rw [show emitStatement ⟨"", ⟨"json", [], false⟩⟩ write_init_object
        = (⟨"json = \x7b\x7d;\n", ⟨"json", [], false⟩⟩ : SerState) from by decide]
    exact serializeEntries_scalar kvs hv "json = \x7b\x7d;\n" "json"
  simp only [to_string, to_string_with]
  rw [hobj]

/-- C7, witness: the amended statement at a concrete object with one
identifier-like and one bracket-forcing key; repeated keys also covered by
a second instance with the key `a` twice. -/
theorem claim_c7_witness :
    to_string (Value.obj [("a", Value.int 1), ("b-c", Value.null)])
      = .ok ("json = \x7b\x7d;\n"
          ++ entryLines "json" [("a", Value.int 1), ("b-c", Value.null)]) :=
  claim_c7_amended [("a", Value.int 1), ("b-c", Value.null)] (by simp) (by decide)

/-- C8: the rendered value of a string scalar is exactly a double quote,
the string verbatim, and a double quote, with no internal escaping, in
any serialization state and in particular at the root. -/
theorem claim_c8_string_verbatim (s : String) (st : SerState) (h : st.ctx.finish = false) :
    serializeValue (Value.str s) st
      = .ok ⟨st.out ++ write_key st.ctx.ns_root st.ctx.ns ++ " = "
            ++ "\"" ++ s ++ "\"" ++ ";\n",
          ⟨st.ctx.ns_root, st.ctx.ns, st.ctx.ns.isEmpty⟩⟩
    ∧ to_string (Value.str s) = .ok ("json" ++ " = " ++ "\"" ++ s ++ "\"" ++ ";\n") := by
  constructor
  · have hs := serializeValue_scalar (Value.str s) rfl st h
    simpa [renderScalar, write_string, write_key_value_delimiter, write_end_of_line,
      String.append_assoc] using hs
  · have hs := serializeValue_scalar (Value.str s) rfl (initState "json") rfl
    simp only [initState, Context.new_with_root_name] at hs
    simp only [to_string, to_string_with, initState, Context.new_with_root_name]
    rw [hs]
    simp [renderScalar, write_string, write_key_value_delimiter, write_end_of_line,
      write_key, String.append_assoc]
    rw [← String.append_assoc]
    simp

/-- C8, witness: a string containing a double quote passes through
unescaped. -/
theorem claim_c8_witness :
    to_string (Value.str "a\"b") = .ok "json = \"a\"b\";\n" := by
  have h := (claim_c8_string_verbatim "a\"b" (initState "json") rfl).2
  simpa using h

/-- C9: the root name is substituted verbatim as the first path component
(the rendered path is the root name followed by text depending only on
the segments), any root name is accepted without validation (shown for
the empty and a non-identifier root on a root-level statement), and the
plain entry point uses the default root name `json`. -/
theorem claim_c9_root_verbatim (r : String) (nss : List NamespaceKey) :
    write_key r nss = r ++ segsText nss
    ∧ to_string_with Value.null r = .ok (r ++ " = null;\n")
    ∧ to_string Value.null = to_string_with Value.null "json" := by
  refine ⟨write_key_eq nss r, ?_, rfl⟩
  have hs := serializeValue_scalar Value.null rfl (initState r) rfl
  simp only [initState, Context.new_with_root_name] at hs
  simp only [to_string_with, initState, Context.new_with_root_name]
  rw [hs]
  simp [renderScalar, write_null, write_key_value_delimiter, write_end_of_line,
    write_key, String.append_assoc]

/-- C10: the namespace segment stack obeys stack discipline: a successful
serialization from any unfinished state returns with the segment stack
(and the root name) exactly as they were before the call. -/
theorem claim_c10_stack_discipline (v : Value) (st st2 : SerState)
    (h : st.ctx.finish = false) (hok : serializeValue v st = .ok st2) :
    st2.ctx.ns = st.ctx.ns ∧ st2.ctx.ns_root = st.ctx.ns_root := by
  obtain ⟨t, ht⟩ := serializeValue_spec v st h
  rw [ht] at hok
  injection hok with h2
  subst h2
  exact ⟨rfl, rfl⟩

/-- C10, witness: after serializing `[1]` from a fresh context the
segment stack is empty again. -/
theorem claim_c10_witness :
    (⟨"json = [];\njson[0] = 1;\n", ⟨"json", [], false⟩⟩ : SerState).ctx.ns
      = (initState "json").ctx.ns :=
  (claim_c10_stack_discipline (Value.arr [Value.int 1]) (initState "json")
    ⟨"json = [];\njson[0] = 1;\n", ⟨"json", [], false⟩⟩ rfl
    (by simp only [serializeValue, serializeElems, initState, Context.new_with_root_name]
        decide)).1

end SerdeGron
